import Mathlib

set_option maxHeartbeats 1000000

/-!
Verification of the oranc cache/registry core against its specification.

Rust sources are shallowly embedded as executable Lean definitions:
strings are `List Char` (Rust `char` and Lean `Char` are both Unicode scalar
values) or `String`, machine integers are `Nat` with explicit bounds where
overflow matters, fallible code returns `Option`/`Except`, and effectful
loops are modelled as explicit state passing that also records the I/O
events (network calls, DB accesses) the code would perform.
-/

namespace Oranc

/-! ## Model of src/convert.rs (CustomEncoding) -/

/-- The 64-symbol table built by `CustomEncoding::new`:
`'0'..='9'`, then `'a'..='z'`, then `'A'..='Z'`, then `'-'`, then `'.'`
(indices 0..63). -/
def symbolTable : List Char :=
  (List.range 10).map (fun i => Char.ofNat (48 + i)) ++
    (List.range 26).map (fun i => Char.ofNat (97 + i)) ++
    (List.range 26).map (fun i => Char.ofNat (65 + i)) ++ ['-', '.']

/-- First index of a character in a list; model of the `reverse_table`
lookup (`BTreeMap<char, u32>` built from the enumerated symbol table). -/
def idxOf (c : Char) : List Char → Option Nat
  | [] => none
  | d :: ds => if d = c then some 0 else (idxOf c ds).map (· + 1)

/-- Model of the Rust range patterns `'a'..='z' | 'A'..='Z' | '0'..='9'`. -/
def isAsciiAlnum (c : Char) : Bool :=
  (97 ≤ c.toNat && c.toNat ≤ 122) || (65 ≤ c.toNat && c.toNat ≤ 90) ||
    (48 ≤ c.toNat && c.toNat ≤ 57)

/-- The little-endian digit loop of `CustomEncoding::encode_char`:
`while n != 0 { push symbol_table[n % 64]; n := n / 64 }`. -/
def encodeCharCode (n : Nat) : List Char :=
  if n = 0 then [] else symbolTable.getD (n % 64) '0' :: encodeCharCode (n / 64)
termination_by n
decreasing_by exact Nat.div_lt_self (Nat.pos_of_ne_zero (by assumption)) (by norm_num)

/-- `CustomEncoding::encode_char`: `'_'`, the base-64 digits of the code
point most-significant first (the Rust code pushes little-endian and then
extends with the reversed vector), then `'_'`. -/
def encodeChar (c : Char) : List Char :=
  '_' :: ((encodeCharCode c.toNat).reverse ++ ['_'])

/-- One iteration of the `encode` loop body: the match on `c` with the
`first` flag. -/
def encodeEmit (first : Bool) (c : Char) : List Char :=
  if isAsciiAlnum c then [c]
  else if c = '-' ∨ c = '.' then (if first then encodeChar c else [c])
  else encodeChar c

/-- The `encode` loop: the `first` flag is true only for the first
character of the key. -/
def encodeGo : Bool → List Char → List Char
  | _, [] => []
  | first, c :: cs => encodeEmit first c ++ encodeGo false cs

/-- `CustomEncoding::encode`. -/
def encode (key : List Char) : List Char := encodeGo true key

/-- The single error `CustomEncoding::decode` can produce
(`Error::InvalidTag`). -/
inductive TagError
  | invalidTag
deriving DecidableEq, Repr

/-- The checked-arithmetic accumulation loop of
`CustomEncoding::decode_char`: `n = n.checked_mul(64)?;
n = n.checked_add(reverse_table[c]?)?` over the digits, with `u32`
overflow modelled as an explicit `2^32` bound. -/
def decodeCharNumGo : Nat → List Char → Option Nat
  | n, [] => some n
  | n, c :: cs =>
    if n * 64 < 4294967296 then
      match idxOf c symbolTable with
      | none => none
      | some v =>
        if n * 64 + v < 4294967296 then decodeCharNumGo (n * 64 + v) cs
        else none
    else none

/-- `CustomEncoding::decode_char`: accumulate the digits, then
`u32 -> char` conversion (`n.try_into().ok()`), which fails on surrogates
and code points above `0x10FFFF`. -/
def decodeChar (digits : List Char) : Option Char :=
  match decodeCharNumGo 0 digits with
  | none => none
  | some n => if n.isValidChar then some (Char.ofNat n) else none

/-- Characters `decode` passes through verbatim:
`'a'..='z' | 'A'..='Z' | '0'..='9' | '-' | '.'`. -/
def decodePlain (c : Char) : Bool := isAsciiAlnum c || c = '-' || c = '.'

instance {e a : Type} [DecidableEq e] [DecidableEq a] : DecidableEq (Except e a)
  | .ok x, .ok y =>
    if h : x = y then .isTrue (by rw [h]) else .isFalse (fun hc => by cases hc; exact h rfl)
  | .ok _, .error _ => .isFalse (fun hc => by cases hc)
  | .error _, .ok _ => .isFalse (fun hc => by cases hc)
  | .error x, .error y =>
    if h : x = y then .isTrue (by rw [h]) else .isFalse (fun hc => by cases hc; exact h rfl)

/-- The `decode` loop of `CustomEncoding::decode` as a single-pass state
machine. State `none` is the outer loop; state `some acc` is the inner
escape-collection loop (`acc` holds the collected digits in reverse).
Running out of characters inside an escape is the `None => Err(InvalidTag)`
arm; a character that is neither plain nor `'_'` is the final `_ => Err`
arm. -/
def decodeGo : List Char → Option (List Char) → Except TagError (List Char)
  | [], none => .ok []
  | [], some _ => .error .invalidTag
  | c :: cs, none =>
    if decodePlain c then
      match decodeGo cs none with
      | .ok r => .ok (c :: r)
      | .error e => .error e
    else if c = '_' then decodeGo cs (some [])
    else .error .invalidTag
  | c :: cs, some acc =>
    if c = '_' then
      match decodeChar acc.reverse with
      | none => .error .invalidTag
      | some d =>
        match decodeGo cs none with
        | .ok r => .ok (d :: r)
        | .error e => .error e
    else decodeGo cs (some (c :: acc))

/-- `CustomEncoding::decode`. -/
def decode (tag : List Char) : Except TagError (List Char) := decodeGo tag none

/-- Spec-side digit function: the base-64 digits of `n` over the symbol
table, most-significant first, empty for `n = 0`. -/
def natToDigits (n : Nat) : List Char :=
  if n = 0 then []
  else natToDigits (n / 64) ++ [symbolTable.getD (n % 64) '0']
termination_by n
decreasing_by exact Nat.div_lt_self (Nat.pos_of_ne_zero (by assumption)) (by norm_num)

/-- Per-character emission as the claim words it: `[a-zA-Z0-9]` verbatim,
`'-'`/`'.'` verbatim except as the first character (escape-encoded there),
every other character as `'_'` + most-significant-first base-64 digits +
`'_'`. -/
def encodeSpecEmit (first : Bool) (c : Char) : List Char :=
  if isAsciiAlnum c then [c]
  else if (c = '-' ∨ c = '.') ∧ first = false then [c]
  else '_' :: (natToDigits c.toNat ++ ['_'])

/-- Whole-key emission as the claim words it. -/
def encodeSpec : List Char → List Char
  | [] => []
  | c :: cs => encodeSpecEmit true c ++ (cs.map (encodeSpecEmit false)).flatten

/-! ### Properties of the tag codec -/

theorem natToDigits_zero : natToDigits 0 = [] := by
  rw [natToDigits]
  simp

theorem natToDigits_succ (n : Nat) (h : n ≠ 0) :
    natToDigits n = natToDigits (n / 64) ++ [symbolTable.getD (n % 64) '0'] := by
  rw [natToDigits]
  simp [h]

theorem encodeCharCode_reverse (n : Nat) :
    (encodeCharCode n).reverse = natToDigits n := by
  induction n using Nat.strong_induction_on with
  | _ n ih =>
    by_cases h : n = 0
    · subst h
      rw [encodeCharCode, natToDigits]
      simp
    · rw [encodeCharCode, natToDigits_succ n h]
      simp only [h, if_false]
      rw [List.reverse_cons, ih (n / 64) (Nat.div_lt_self (Nat.pos_of_ne_zero h) (by norm_num))]

theorem symbolTable_getD_mem : ∀ r < 64, symbolTable.getD r '0' ∈ symbolTable := by
  decide

theorem symbolTable_getD_ne_underscore : ∀ r < 64, symbolTable.getD r '0' ≠ '_' := by
  decide

theorem idxOf_symbolTable_getD : ∀ r < 64, idxOf (symbolTable.getD r '0') symbolTable = some r := by
  decide

theorem natToDigits_ne_underscore (n : Nat) : ∀ d ∈ natToDigits n, d ≠ '_' := by
  induction n using Nat.strong_induction_on with
  | _ n ih =>
    by_cases h : n = 0
    · subst h
      rw [natToDigits_zero]
      simp
    · rw [natToDigits_succ n h]
      intro d hd
      rcases List.mem_append.mp hd with h1 | h2
      · exact ih (n / 64) (Nat.div_lt_self (Nat.pos_of_ne_zero h) (by norm_num)) d h1
      · simp only [List.mem_singleton] at h2
        subst h2
        exact symbolTable_getD_ne_underscore (n % 64) (Nat.mod_lt n (by norm_num))

theorem decodeCharNumGo_append_ok (ds es : List Char) (n m : Nat)
    (h : decodeCharNumGo n ds = some m) :
    decodeCharNumGo n (ds ++ es) = decodeCharNumGo m es := by
  induction ds generalizing n with
  | nil =>
    simp only [decodeCharNumGo, Option.some.injEq] at h
    subst h
    simp
  | cons c cs ih =>
    simp only [decodeCharNumGo, List.cons_append] at h ⊢
    by_cases h1 : n * 64 < 4294967296
    · simp only [h1, if_true] at h ⊢
      cases h2 : idxOf c symbolTable with
      | none => simp [h2] at h
      | some v =>
        simp only [h2] at h ⊢
        by_cases h3 : n * 64 + v < 4294967296
        · simp only [h3, if_true] at h ⊢
          exact ih (n * 64 + v) h
        · simp [h3] at h
    · simp [h1] at h

theorem decodeCharNumGo_natToDigits (n : Nat) :
    ∀ a : Nat, a * 64 ^ (natToDigits n).length + n < 4294967296 →
      decodeCharNumGo a (natToDigits n) = some (a * 64 ^ (natToDigits n).length + n) := by
  induction n using Nat.strong_induction_on with
  | _ n ih =>
    intro a hb
    by_cases h : n = 0
    · subst h
      rw [natToDigits_zero] at *
      simp [decodeCharNumGo]
    · have hdig := natToDigits_succ n h
      have hlen : (natToDigits n).length = (natToDigits (n / 64)).length + 1 := by
        rw [hdig]; simp
      have hdm : n / 64 * 64 + n % 64 = n := by omega
      have hkey : (a * 64 ^ (natToDigits (n / 64)).length + n / 64) * 64 + n % 64 =
          a * 64 ^ (natToDigits n).length + n := by
        rw [hlen, Nat.pow_succ]
        nlinarith [hdm]
      have h1 : (a * 64 ^ (natToDigits (n / 64)).length + n / 64) * 64 + n % 64 <
          4294967296 := by
        rw [hkey]; exact hb
      have hb2 : a * 64 ^ (natToDigits (n / 64)).length + n / 64 < 4294967296 := by
        omega
      rw [hdig, decodeCharNumGo_append_ok _ _ a _
        (ih (n / 64) (Nat.div_lt_self (Nat.pos_of_ne_zero h) (by norm_num)) a hb2)]
      have hmul : (a * 64 ^ (natToDigits (n / 64)).length + n / 64) * 64 <
          4294967296 := by omega
      simp only [decodeCharNumGo, hmul, if_true,
        idxOf_symbolTable_getD (n % 64) (Nat.mod_lt n (by norm_num)), h1]
      rw [hkey, ← hdig]

theorem decodeChar_natToDigits (c : Char) :
    decodeChar (natToDigits c.toNat) = some c := by
  have hval : Nat.isValidChar c.toNat := c.valid
  have hlt : c.toNat < 4294967296 := by
    rcases hval with h | ⟨_, h⟩ <;> omega
  have h0 : (0 : Nat) * 64 ^ (natToDigits c.toNat).length + c.toNat < 4294967296 := by
    simpa using hlt
  have hgo := decodeCharNumGo_natToDigits c.toNat 0 h0
  simp only [Nat.zero_mul, Nat.zero_add] at hgo
  rw [decodeChar, hgo]
  simp [hval, Char.ofNat_toNat]

theorem decodeGo_escape (ds : List Char) (hds : ∀ d ∈ ds, d ≠ '_') (acc t : List Char) :
    decodeGo (ds ++ '_' :: t) (some acc) =
      match decodeChar (acc.reverse ++ ds) with
      | none => .error .invalidTag
      | some d =>
        match decodeGo t none with
        | .ok r => .ok (d :: r)
        | .error e => .error e := by
  induction ds generalizing acc with
  | nil => simp [decodeGo]
  | cons d ds ih =>
    have hd : d ≠ '_' := hds d (by simp)
    simp only [List.cons_append, decodeGo, if_neg hd, List.append_eq]
    rw [ih (fun x hx => hds x (by simp [hx])) (d :: acc)]
    simp [List.append_assoc]

theorem decodePlain_underscore : decodePlain '_' = false := by decide

theorem decodeGo_encodeChar (c : Char) (t : List Char) :
    decodeGo (encodeChar c ++ t) none =
      match decodeGo t none with
      | .ok r => .ok (c :: r)
      | .error e => .error e := by
  rw [encodeChar, encodeCharCode_reverse]
  have hnu := natToDigits_ne_underscore c.toNat
  simp only [List.cons_append, List.append_assoc, List.singleton_append,
    List.nil_append]
  rw [show decodeGo ('_' :: (natToDigits c.toNat ++ '_' :: t)) none =
      decodeGo (natToDigits c.toNat ++ '_' :: t) (some []) by
    simp [decodeGo, decodePlain_underscore]]
  rw [decodeGo_escape (natToDigits c.toNat) hnu [] t]
  simp [decodeChar_natToDigits c]

theorem decodeGo_emit (first : Bool) (c : Char) (t : List Char) :
    decodeGo (encodeEmit first c ++ t) none =
      match decodeGo t none with
      | .ok r => .ok (c :: r)
      | .error e => .error e := by
  rw [encodeEmit]
  by_cases h1 : isAsciiAlnum c
  · simp [h1, decodeGo, decodePlain]
  · by_cases h2 : c = '-' ∨ c = '.'
    · cases first with
      | true => simp only [h1, if_false, h2, if_true]; exact decodeGo_encodeChar c t
      | false =>
        have hp : decodePlain c = true := by
          rcases h2 with h | h <;> simp [decodePlain, h]
        simp [h1, h2, decodeGo, hp]
    · simp only [h1, if_false, h2, if_false]
      exact decodeGo_encodeChar c t

theorem decode_encodeGo (cs : List Char) : ∀ first : Bool,
    decodeGo (encodeGo first cs) none = .ok cs := by
  induction cs with
  | nil => intro first; simp [encodeGo, decodeGo]
  | cons c cs ih =>
    intro first
    rw [encodeGo, decodeGo_emit first c (encodeGo false cs), ih false]

theorem encodeEmit_eq_spec (first : Bool) (c : Char) :
    encodeEmit first c = encodeSpecEmit first c := by
  rw [encodeEmit, encodeSpecEmit]
  by_cases h1 : isAsciiAlnum c
  · simp [h1]
  · by_cases h2 : c = '-' ∨ c = '.'
    · cases first with
      | true =>
        simp only [h1, if_false, h2, if_true, true_and]
        rw [encodeChar, encodeCharCode_reverse]
        simp
      | false => simp [h1, h2]
    · simp only [h1, if_false, h2, if_false, false_and]
      rw [encodeChar, encodeCharCode_reverse]

theorem encodeGo_false_eq_spec (cs : List Char) :
    encodeGo false cs = (cs.map (encodeSpecEmit false)).flatten := by
  induction cs with
  | nil => simp [encodeGo]
  | cons c cs ih => rw [encodeGo, encodeEmit_eq_spec, ih]; simp

theorem encode_eq_spec (k : List Char) : encode k = encodeSpec k := by
  cases k with
  | nil => rfl
  | cons c cs =>
    rw [encode, encodeGo, encodeSpec, encodeEmit_eq_spec, encodeGo_false_eq_spec]

/-- C1: for every key whose custom-encoded form is at most 128 characters,
`CustomEncoding::decode` inverts `CustomEncoding::encode` bit-for-bit, and
`encode` is total, emitting `[a-zA-Z0-9]` verbatim, `'-'` and `'.'`
verbatim except as the first character (where they are escape-encoded),
and every other character as `'_'` + base-64 digits of its code point,
most-significant first, + `'_'`. -/
theorem C1_custom_encoding_roundtrip (k : List Char)
    (_hlen : (encode k).length ≤ 128) :
    decode (encode k) = .ok k ∧ encode k = encodeSpec k :=
  ⟨decode_encodeGo k true, encode_eq_spec k⟩

/-- Witness for C1 at the repository's own test vector `"--"`
(encoded form `"_J_-"`, length 4 ≤ 128). -/
theorem C1_custom_encoding_roundtrip_witness :
    (encode ['-', '-']).length ≤ 128 ∧
      (decode (encode ['-', '-']) = .ok ['-', '-'] ∧
        encode ['-', '-'] = encodeSpec ['-', '-']) := by
  refine ⟨?_, C1_custom_encoding_roundtrip ['-', '-'] ?_⟩ <;>
    simp [encode, encodeGo, encodeEmit, encodeChar, encodeCharCode, isAsciiAlnum]

/-- C10: `CustomEncoding::decode` is total — every input yields either a
decoded key or the `InvalidTag` error; an escape sequence whose base-64
digits overflow `u32` (`"_zzzzzz_"`) or denote an invalid code point (the
surrogate `0xD800` = `"_dw0_"`) is rejected by the checked arithmetic; and
the empty escape `"__"` decodes to the single character `U+0000`, which
`encode` also produces for `U+0000`, so NUL round-trips. -/
theorem C10_decode_total_checked :
    (∀ t : List Char, (∃ k, decode t = .ok k) ∨ decode t = .error .invalidTag) ∧
      decode ['_', '_'] = .ok [Char.ofNat 0] ∧
      encode [Char.ofNat 0] = ['_', '_'] ∧
      decode "_zzzzzz_".data = .error .invalidTag ∧
      decode "_dw0_".data = .error .invalidTag := by
  refine ⟨?_, by decide, ?_, by decide, by decide⟩
  · intro t
    cases h : decode t with
    | ok k => exact Or.inl ⟨k, rfl⟩
    | error e => cases e; exact Or.inr rfl
  · simp [encode, encodeGo, encodeEmit, encodeChar, encodeCharCode, isAsciiAlnum]

/-! ## Model of src/nix/sign.rs (NixSignature, NixSignatureList) -/

/-- A parsed `name:signature` pair (`NixSignature`). -/
structure NixSignature where
  name : List Char
  signature : List Char
deriving DecidableEq, Repr

/-- Errors of the signature codec that the modelled functions can
produce. -/
inductive SignError
  | invalidSignature (tok : List Char)
  | verifyFail (err : Nat)
  | signatureMismatch (name newSig exists_ : List Char)
deriving DecidableEq, Repr

/-- `SIG_REGEX` = `^([^:]+):(.*)$` applied to one token: the name is the
maximal `':'`-free run (which must be nonempty and followed by `':'` —
when the `dropWhile` below is nonempty its head is necessarily the first
`':'` of the token), the signature is the rest, which must not contain
`'\n'` (the regex `.` does not match a newline). -/
def sigFromStr (tok : List Char) : Except SignError NixSignature :=
  match tok.dropWhile (fun c => c ≠ ':') with
  | _ :: sig =>
    if tok.takeWhile (fun c => c ≠ ':') ≠ [] ∧ sig.all (fun c => c ≠ '\n') = true
    then .ok ⟨tok.takeWhile (fun c => c ≠ ':'), sig⟩
    else .error (.invalidSignature tok)
  | [] => .error (.invalidSignature tok)

/-- Rust `str::split(' ')`: splits at every space, keeping empty pieces,
and yields exactly one (empty) piece on empty input. -/
def splitSp : List Char → List (List Char)
  | [] => [[]]
  | c :: cs =>
    if c = ' ' then [] :: splitSp cs
    else
      match splitSp cs with
      | p :: ps => (c :: p) :: ps
      | [] => [[c]]

/-- `NixSignatureList::from_str`: split on spaces and parse every token,
propagating the first error (`collect::<Result<_, _>>`). -/
def sigListFromStr (s : List Char) : Except SignError (List NixSignature) :=
  (splitSp s).mapM sigFromStr

/-- The loop of `NixSignatureList::merge` over the existing entries.
For each entry with the new signature name: verify it (errors propagate),
record that an entry already exists, and fail with `SignatureMismatch` if
its signature value differs. Returns the final `already_exists` flag. -/
def mergeLoop (verify : NixSignature → Except Nat Unit) (new : NixSignature) :
    List NixSignature → Bool → Except SignError Bool
  | [], exists_ => .ok exists_
  | s :: rest, exists_ =>
    if s.name = new.name then
      match verify s with
      | .error e => .error (.verifyFail e)
      | .ok _ =>
        if s.signature ≠ new.signature then
          .error (.signatureMismatch new.name new.signature s.signature)
        else mergeLoop verify new rest true
    else mergeLoop verify new rest exists_

/-- `NixSignatureList::merge`: run the loop, then append the new signature
exactly when no equal entry already existed.  The Ed25519 verification
`key_pair.verify(data, s)` is abstracted as the oracle `verify`
(the key pair and payload are fixed throughout the call). -/
def merge (verify : NixSignature → Except Nat Unit) (l : List NixSignature)
    (new : NixSignature) : Except SignError (List NixSignature) :=
  match mergeLoop verify new l false with
  | .error e => .error e
  | .ok exists_ => .ok (if exists_ then l else l ++ [new])

/-! ### Properties of the signature codec -/

theorem mergeLoop_all_ok (verify : NixSignature → Except Nat Unit)
    (new : NixSignature) :
    ∀ (l : List NixSignature) (b : Bool),
      (∀ e ∈ l, e.name = new.name → verify e = .ok () ∧ e.signature = new.signature) →
      mergeLoop verify new l b =
        .ok (b || l.any (fun e => e.name == new.name)) := by
  intro l
  induction l with
  | nil => intro b _; simp [mergeLoop]
  | cons s rest ih =>
    intro b hall
    by_cases hn : s.name = new.name
    · obtain ⟨hv, hsig⟩ := hall s (by simp) hn
      rw [mergeLoop, if_pos hn, hv]
      simp only [hsig, ne_eq, not_true_eq_false, if_false]
      rw [ih true (fun e he hne => hall e (by simp [he]) hne)]
      simp [beq_iff_eq, hn]
    · rw [mergeLoop, if_neg hn, ih b (fun e he hne => hall e (by simp [he]) hne)]
      have hb : (s.name == new.name) = false := beq_eq_false_iff_ne.mpr hn
      simp [hb]

theorem mergeLoop_mismatch (verify : NixSignature → Except Nat Unit)
    (new : NixSignature) :
    ∀ (l : List NixSignature) (b : Bool),
      (∀ e ∈ l, e.name = new.name → verify e = .ok ()) →
      (∃ e ∈ l, e.name = new.name ∧ e.signature ≠ new.signature) →
      ∃ ex, mergeLoop verify new l b =
          .error (.signatureMismatch new.name new.signature ex) ∧
        ∃ e ∈ l, e.name = new.name ∧ e.signature = ex := by
  intro l
  induction l with
  | nil => intro b _ hex; simp at hex
  | cons s rest ih =>
    intro b hver hex
    by_cases hn : s.name = new.name
    · have hv := hver s (by simp) hn
      by_cases hs : s.signature = new.signature
      · rw [mergeLoop, if_pos hn, hv]
        simp only [hs, ne_eq, not_true_eq_false, if_false]
        have hex2 : ∃ e ∈ rest, e.name = new.name ∧ e.signature ≠ new.signature := by
          rcases hex with ⟨e, he, hne, hsig⟩
          rcases List.mem_cons.mp he with rfl | hm
          · exact absurd hs (by rw [hs] at hsig; exact absurd rfl hsig)
          · exact ⟨e, hm, hne, hsig⟩
        rcases ih true (fun e he hne => hver e (by simp [he]) hne) hex2 with
          ⟨ex, heq, e, he, hne, hsig⟩
        exact ⟨ex, heq, e, by simp [he], hne, hsig⟩
      · refine ⟨s.signature, ?_, s, by simp, hn, rfl⟩
        rw [mergeLoop, if_pos hn, hv]
        simp [hs]
    · rw [mergeLoop, if_neg hn]
      have hex2 : ∃ e ∈ rest, e.name = new.name ∧ e.signature ≠ new.signature := by
        rcases hex with ⟨e, he, hne, hsig⟩
        rcases List.mem_cons.mp he with rfl | hm
        · exact absurd hne hn
        · exact ⟨e, hm, hne, hsig⟩
      rcases ih b (fun e he hne => hver e (by simp [he]) hne) hex2 with
        ⟨ex, heq, e, he, hne, hsig⟩
      exact ⟨ex, heq, e, by simp [he], hne, hsig⟩

theorem mergeLoop_verify_fail (verify : NixSignature → Except Nat Unit)
    (new : NixSignature) :
    ∀ (l : List NixSignature) (b : Bool),
      (∀ e ∈ l, e.name = new.name → e.signature = new.signature) →
      (∃ e ∈ l, e.name = new.name ∧ verify e ≠ .ok ()) →
      ∃ er, mergeLoop verify new l b = .error (.verifyFail er) ∧
        ∃ e ∈ l, e.name = new.name ∧ verify e = .error er := by
  intro l
  induction l with
  | nil => intro b _ hex; simp at hex
  | cons s rest ih =>
    intro b hsig hex
    by_cases hn : s.name = new.name
    · cases hv : verify s with
      | error er =>
        exact ⟨er, by rw [mergeLoop, if_pos hn, hv], s, by simp, hn, hv⟩
      | ok u =>
        cases u
        rw [mergeLoop, if_pos hn, hv]
        have hs := hsig s (by simp) hn
        simp only [hs, ne_eq, not_true_eq_false, if_false]
        have hex2 : ∃ e ∈ rest, e.name = new.name ∧ verify e ≠ .ok () := by
          rcases hex with ⟨e, he, hne, hvf⟩
          rcases List.mem_cons.mp he with rfl | hm
          · exact absurd hv hvf
          · exact ⟨e, hm, hne, hvf⟩
        rcases ih true (fun e he hne => hsig e (by simp [he]) hne) hex2 with
          ⟨er, heq, e, he, hne, hvf⟩
        exact ⟨er, heq, e, by simp [he], hne, hvf⟩
    · rw [mergeLoop, if_neg hn]
      have hex2 : ∃ e ∈ rest, e.name = new.name ∧ verify e ≠ .ok () := by
        rcases hex with ⟨e, he, hne, hvf⟩
        rcases List.mem_cons.mp he with rfl | hm
        · exact absurd hne hn
        · exact ⟨e, hm, hne, hvf⟩
      rcases ih b (fun e he hne => hsig e (by simp [he]) hne) hex2 with
        ⟨er, heq, e, he, hne, hvf⟩
      exact ⟨er, heq, e, by simp [he], hne, hvf⟩

/-- C4: signature-list merge.  Existing entries carrying the new name are
verified in order (verification errors propagate); a same-name entry with
a different signature value makes the merge fail with
`SignatureMismatch`; if an equal entry exists the list is returned
unchanged; otherwise the new signature is appended at the end.  The order
of pre-existing entries is preserved in every success case. -/
theorem C4_signature_merge (verify : NixSignature → Except Nat Unit)
    (l : List NixSignature) (new : NixSignature) :
    ((∀ e ∈ l, e.name = new.name → verify e = .ok () ∧ e.signature = new.signature) →
      merge verify l new =
        .ok (if l.any (fun e => e.name == new.name) then l else l ++ [new])) ∧
    ((∀ e ∈ l, e.name = new.name → verify e = .ok ()) →
      (∃ e ∈ l, e.name = new.name ∧ e.signature ≠ new.signature) →
      ∃ ex, merge verify l new =
          .error (.signatureMismatch new.name new.signature ex) ∧
        ∃ e ∈ l, e.name = new.name ∧ e.signature = ex) ∧
    ((∀ e ∈ l, e.name = new.name → e.signature = new.signature) →
      (∃ e ∈ l, e.name = new.name ∧ verify e ≠ .ok ()) →
      ∃ er, merge verify l new = .error (.verifyFail er) ∧
        ∃ e ∈ l, e.name = new.name ∧ verify e = .error er) := by
  refine ⟨?_, ?_, ?_⟩
  · intro hall
    rw [merge, mergeLoop_all_ok verify new l false hall]
    simp
  · intro hver hex
    rcases mergeLoop_mismatch verify new l false hver hex with ⟨ex, heq, hw⟩
    exact ⟨ex, by rw [merge, heq], hw⟩
  · intro hsig hex
    rcases mergeLoop_verify_fail verify new l false hsig hex with ⟨er, heq, hw⟩
    exact ⟨er, by rw [merge, heq], hw⟩

/-- Witness for C4 at the spec unit scenario: merging an equal signature
into `[K1:S1]` returns the list unchanged. -/
theorem C4_signature_merge_witness :
    merge (fun _ => .ok ()) [⟨['k'], ['s']⟩] ⟨['k'], ['s']⟩ =
      .ok [(⟨['k'], ['s']⟩ : NixSignature)] := by
  have h := (C4_signature_merge (fun _ => .ok ()) [⟨['k'], ['s']⟩] ⟨['k'], ['s']⟩).1
    (by intro e he hn; refine ⟨rfl, ?_⟩; simp at he; rw [he])
  simpa using h

theorem takeWhile_append_eq {α : Type} (p : α → Bool) (l : List α) (y : α)
    (t : List α) (h : ∀ x ∈ l, p x) (hy : p y = false) :
    (l ++ y :: t).takeWhile p = l := by
  induction l with
  | nil => simp [List.takeWhile_cons, hy]
  | cons c cs ih =>
    simp only [List.cons_append, List.takeWhile_cons, h c (by simp), if_true]
    simp [ih (fun x hx => h x (by simp [hx]))]

theorem dropWhile_append_eq {α : Type} (p : α → Bool) (l : List α) (y : α)
    (t : List α) (h : ∀ x ∈ l, p x) (hy : p y = false) :
    (l ++ y :: t).dropWhile p = y :: t := by
  induction l with
  | nil => simp [List.dropWhile_cons, hy]
  | cons c cs ih =>
    simp only [List.cons_append, List.dropWhile_cons, h c (by simp), if_true]
    exact ih (fun x hx => h x (by simp [hx]))

theorem dropWhile_head_false {α : Type} (p : α → Bool) (l : List α) (c : α)
    (cs : List α) (h : l.dropWhile p = c :: cs) : p c = false := by
  induction l with
  | nil => simp at h
  | cons a as ih =>
    rw [List.dropWhile_cons] at h
    by_cases hp : p a = true
    · rw [if_pos hp] at h
      exact ih h
    · rw [if_neg hp] at h
      cases h
      simpa using hp

theorem sigFromStr_eq_cons (tok : List Char) (c : Char) (sig : List Char)
    (h : tok.dropWhile (fun c => c ≠ ':') = c :: sig) :
    sigFromStr tok =
      if tok.takeWhile (fun c => c ≠ ':') ≠ [] ∧
          sig.all (fun c => c ≠ '\n') = true
      then .ok ⟨tok.takeWhile (fun c => c ≠ ':'), sig⟩
      else .error (.invalidSignature tok) := by
  rw [sigFromStr, h]

theorem sigFromStr_eq_nil (tok : List Char)
    (h : tok.dropWhile (fun c => c ≠ ':') = []) :
    sigFromStr tok = .error (.invalidSignature tok) := by
  rw [sigFromStr, h]

/-- C9 counterexample: parsing the empty string does not yield the empty
signature list — splitting `""` on spaces produces the single empty token
`""`, which fails `^([^:]+):(.*)$`, so `from_str` returns
`InvalidSignature("")`. -/
theorem C9_empty_input_counterexample :
    sigListFromStr [] = .error (.invalidSignature []) ∧
      sigListFromStr [] ≠ .ok [] := by
  refine ⟨rfl, ?_⟩
  intro h
  rw [show sigListFromStr [] = .error (.invalidSignature []) from rfl] at h
  exact Except.noConfusion h

/-- C9 (amended): `from_str` splits on single spaces (keeping empty
pieces); a token of the shape `name ++ ":" ++ sig` with nonempty
colon-free `name` and newline-free `sig` parses to that pair; a parsed
token always has that shape; every parse failure is
`InvalidSignature(token)`; and the empty string yields
`InvalidSignature("")` — not the empty list — because splitting the empty
string produces one empty token. -/
theorem C9_sig_list_parsing :
    (∀ s : List Char, sigListFromStr s = (splitSp s).mapM sigFromStr) ∧
    (∀ name sig : List Char, name ≠ [] → (∀ c ∈ name, c ≠ ':') →
      (∀ c ∈ sig, c ≠ '\n') →
      sigFromStr (name ++ ':' :: sig) = .ok ⟨name, sig⟩) ∧
    (∀ tok : List Char, ∀ ns : NixSignature, sigFromStr tok = .ok ns →
      tok = ns.name ++ ':' :: ns.signature) ∧
    (∀ tok : List Char, ∀ e, sigFromStr tok = .error e →
      e = .invalidSignature tok) ∧
    sigListFromStr [] = .error (.invalidSignature []) := by
  refine ⟨fun _ => rfl, ?_, ?_, ?_, rfl⟩
  · intro name sig hne hcol hnl
    have hcol2 : ∀ x ∈ name, (fun c => decide (c ≠ ':')) x = true := by
      intro x hx
      simpa using hcol x hx
    have hy : (fun c => decide (c ≠ ':')) ':' = false := by simp
    have ht := takeWhile_append_eq _ name ':' sig hcol2 hy
    have hd := dropWhile_append_eq _ name ':' sig hcol2 hy
    have hall : sig.all (fun c => decide (c ≠ '\n')) = true := by
      rw [List.all_eq_true]
      intro x hx
      simpa using hnl x hx
    rw [sigFromStr_eq_cons _ ':' sig hd, ht, if_pos ⟨hne, hall⟩]
  · intro tok ns h
    rcases hdw : tok.dropWhile (fun c => decide (c ≠ ':')) with _ | ⟨c, sig⟩
    · rw [sigFromStr_eq_nil tok hdw] at h
      exact Except.noConfusion h
    · rw [sigFromStr_eq_cons tok c sig hdw] at h
      by_cases hcond : tok.takeWhile (fun c => decide (c ≠ ':')) ≠ [] ∧
          sig.all (fun c => decide (c ≠ '\n')) = true
      · rw [if_pos hcond] at h
        cases h
        have hc : c = ':' := by
          have := dropWhile_head_false _ tok c sig hdw
          simpa using this
        conv_lhs => rw [← List.takeWhile_append_dropWhile
          (fun c => decide (c ≠ ':')) tok]
        rw [hdw, hc]
      · rw [if_neg hcond] at h
        exact Except.noConfusion h
  · intro tok e h
    rcases hdw : tok.dropWhile (fun c => decide (c ≠ ':')) with _ | ⟨c, sig⟩
    · rw [sigFromStr_eq_nil tok hdw] at h
      cases h
      rfl
    · rw [sigFromStr_eq_cons tok c sig hdw] at h
      by_cases hcond : tok.takeWhile (fun c => decide (c ≠ ':')) ≠ [] ∧
          sig.all (fun c => decide (c ≠ '\n')) = true
      · rw [if_pos hcond] at h
        exact Except.noConfusion h
      · rw [if_neg hcond] at h
        cases h
        rfl

/-- Witness for C9 at a concrete matching token `"k:s"`. -/
theorem C9_sig_list_parsing_witness :
    sigFromStr (['k'] ++ ':' :: ['s']) = .ok ⟨['k'], ['s']⟩ :=
  C9_sig_list_parsing.2.1 ['k'] ['s'] (by decide) (by decide) (by decide)

/-! ## Model of src/registry.rs (get_layer_info, put)

The OCI distribution client is abstracted as an oracle: for each
reference, a function from the attempt number to the pull outcome, and
for `put` a function from the attempt number to an optional error
(`none` = the push succeeded).  The model additionally returns the list
of network calls the code would perform. -/

/-- `oci_distribution::errors::OciErrorCode`, reduced to the distinction
`get_layer_info` makes. -/
inductive OciErrorCode
  | manifestUnknown
  | other (n : Nat)
deriving DecidableEq, Repr

/-- One layer of a pulled manifest. -/
structure OciLayer where
  mediaType : String
  digest : String
  annotations : Option (List (String × String))
deriving DecidableEq, Repr

/-- A pulled image manifest (the fields `get_layer_info` reads). -/
structure OciManifest where
  layers : List OciLayer
deriving DecidableEq, Repr

/-- Outcome of one `pull_image_manifest` call. -/
inductive PullRes
  | ok (m : OciManifest)
  | manifestNotFound
  | registryErr (codes : List OciErrorCode)
  | otherErr (n : Nat)
deriving DecidableEq, Repr

/-- Result of the inner retry loop for one reference. -/
inductive RefOutcome
  | found (m : OciManifest)
  | stopped (errs : List PullRes)
  | exhausted (errs : List PullRes)
deriving DecidableEq, Repr

/-- The errors `get_layer_info` can produce. -/
inductive GetError
  | invalidMaxRetry (n : Nat)
  | retryAllFails (errs : List PullRes)
  | invalidLayerCount (n : Nat)
  | invalidLayerMediaType (s : String)
  | noLayerAnnotations
  | noLayerAnnotationKey (s : String)
deriving DecidableEq, Repr

/-- `LayerInfo`; the reference is identified by its index in the merged
reference list (primary = 0, fallbacks following). -/
structure LayerInfo where
  reference : Nat
  digest : String
  contentType : String
deriving DecidableEq, Repr

def LAYER_MEDIA_TYPE : String := "application/octet-stream"

def CONTENT_TYPE_ANNOTATION : String := "com.linyinfeng.oranc.content.type"

/-- The inner `'retries: for attempt in 1..max_retry` loop: success breaks
both loops, a manifest-not-found or a registry error whose sub-error codes
are all `ManifestUnknown` breaks the retry loop, and any other error is
recorded in `ref_errors`. -/
def refAttempts (pull : Nat → PullRes) : List Nat → List PullRes → RefOutcome
  | [], errs => .exhausted errs
  | i :: rest, errs =>
    match pull i with
    | .ok m => .found m
    | .manifestNotFound => .stopped errs
    | .registryErr codes =>
      if codes.all (fun c => c == .manifestUnknown) then .stopped errs
      else refAttempts pull rest (errs ++ [.registryErr codes])
    | .otherErr n => refAttempts pull rest (errs ++ [.otherErr n])

/-- The outer `'fallbacks: for reference in references` loop.  After each
reference the code extends the accumulated `errors` with `ref_errors`
only under the (source) condition `ref_errors.len() == max_retry`. -/
def fallbackLoop (maxRetry : Nat) :
    List (Nat → PullRes) → Nat → Option (Nat × OciManifest) × List PullRes
  | [], _ => (none, [])
  | pull :: rest, i =>
    match refAttempts pull (List.range' 1 (maxRetry - 1)) [] with
    | .found m => (some (i, m), [])
    | .stopped refErrs =>
      ((fallbackLoop maxRetry rest (i + 1)).1,
        (if refErrs.length = maxRetry then refErrs else []) ++
          (fallbackLoop maxRetry rest (i + 1)).2)
    | .exhausted refErrs =>
      ((fallbackLoop maxRetry rest (i + 1)).1,
        (if refErrs.length = maxRetry then refErrs else []) ++
          (fallbackLoop maxRetry rest (i + 1)).2)

/-- Lookup in the layer annotation map. -/
def lookupAnn (anns : List (String × String)) (k : String) : Option String :=
  (anns.find? (fun p => p.1 == k)).map (fun p => p.2)

/-- The manifest validation after a successful pull: exactly one layer,
the right media type, annotations present, content-type annotation
present. -/
def validateManifest (refIdx : Nat) (m : OciManifest) :
    Except GetError (Option LayerInfo) :=
  match m.layers with
  | [layer] =>
    if layer.mediaType ≠ LAYER_MEDIA_TYPE then
      .error (.invalidLayerMediaType layer.mediaType)
    else
      match layer.annotations with
      | none => .error .noLayerAnnotations
      | some anns =>
        match lookupAnn anns CONTENT_TYPE_ANNOTATION with
        | none => .error (.noLayerAnnotationKey CONTENT_TYPE_ANNOTATION)
        | some ct => .ok (some ⟨refIdx, layer.digest, ct⟩)
  | ls => .error (.invalidLayerCount ls.length)

/-- `registry::get_layer_info` over the merged reference list. -/
def get_layer_info (maxRetry : Nat) (refs : List (Nat → PullRes)) :
    Except GetError (Option LayerInfo) :=
  if maxRetry < 1 then .error (.invalidMaxRetry maxRetry)
  else
    match (fallbackLoop maxRetry refs 0).1 with
    | some (i, m) => validateManifest i m
    | none =>
      if (fallbackLoop maxRetry refs 0).2 = [] then .ok none
      else .error (.retryAllFails (fallbackLoop maxRetry refs 0).2)

/-! ### Properties of get_layer_info -/

theorem refAttempts_errs_length (pull : Nat → PullRes) :
    ∀ (attempts : List Nat) (errs es : List PullRes),
      (refAttempts pull attempts errs = .stopped es ∨
        refAttempts pull attempts errs = .exhausted es) →
      es.length ≤ errs.length + attempts.length := by
  intro attempts
  induction attempts with
  | nil =>
    intro errs es h
    rcases h with h | h
    · cases h
    · cases h
      simp
  | cons i rest ih =>
    intro errs es h
    rw [refAttempts] at h
    split at h
    · rcases h with h | h <;> cases h
    · rcases h with h | h
      · cases h; simp
      · cases h
    · split at h
      · rcases h with h | h
        · cases h; simp
        · cases h
      · have := ih _ es h
        simp at this ⊢
        omega
    · have := ih _ es h
      simp at this ⊢
      omega

theorem fallbackLoop_errs_nil (maxRetry : Nat) (h : 1 ≤ maxRetry) :
    ∀ (refs : List (Nat → PullRes)) (i : Nat),
      (fallbackLoop maxRetry refs i).2 = [] := by
  intro refs
  induction refs with
  | nil => intro i; rfl
  | cons pull rest ih =>
    intro i
    have hlt : ∀ es : List PullRes,
        (refAttempts pull (List.range' 1 (maxRetry - 1)) [] = .stopped es ∨
          refAttempts pull (List.range' 1 (maxRetry - 1)) [] = .exhausted es) →
        ¬es.length = maxRetry := by
      intro es hes
      have := refAttempts_errs_length pull (List.range' 1 (maxRetry - 1)) [] es hes
      simp [List.length_range'] at this
      omega
    rw [fallbackLoop]
    split
    · simp
    · rename_i es hra
      simp only [hlt es (Or.inl hra), if_false, List.nil_append]
      exact ih (i + 1)
    · rename_i es hra
      simp only [hlt es (Or.inr hra), if_false, List.nil_append]
      exact ih (i + 1)

theorem validateManifest_no_retryAllFails (refIdx : Nat) (m : OciManifest)
    (errs : List PullRes) :
    validateManifest refIdx m ≠ .error (.retryAllFails errs) := by
  rw [validateManifest]
  split
  · split
    · simp
    · split
      · simp
      · split
        · simp
        · simp
  · simp

/-- C2 (code bug): the condition `ref_errors.len() == max_retry` guarding
`errors.extend(ref_errors)` can never hold, because the retry loop makes
at most `max_retry - 1` attempts, so `get_layer_info` never returns
`RetryAllFails` — contrary to the claim (and to the code's own comments).
Concretely, with `max_retry = 2` and a single reference that always fails
with a retriable error, the code returns `Ok(None)`. -/
theorem C2_get_layer_info_retry_unreachable :
    get_layer_info 2 [fun _ => .otherErr 7] = .ok none ∧
      ∀ (maxRetry : Nat) (refs : List (Nat → PullRes)) (errs : List PullRes),
        get_layer_info maxRetry refs ≠ .error (.retryAllFails errs) := by
  constructor
  · rfl
  · intro maxRetry refs errs
    rw [get_layer_info]
    by_cases h : maxRetry < 1
    · rw [if_pos h]; intro hc; cases hc
    · rw [if_neg h]
      have hnil := fallbackLoop_errs_nil maxRetry (by omega) refs 0
      split
      · rename_i i m _
        exact validateManifest_no_retryAllFails i m errs
      · rw [if_pos hnil]
        simp

/-! ### Model of registry::put -/

/-- `oci_distribution::Reference::with_tag`. -/
structure Reference where
  registry : String
  repository : String
  tag : String
deriving DecidableEq, Repr

/-- `registry::OciLocation`. -/
structure OciLocation where
  registry : String
  repository : String
  key : String
deriving DecidableEq, Repr

/-- `convert::EncodingOptions` with each tag encoding abstracted as its
encode function (`TagEncoding::key_to_tag`). -/
structure EncodingOptions where
  tagEncoding : String → String
  fallbackEncodings : List (String → String)

/-- `EncodingOptions::key_to_tag`: the primary tag and the fallback
tags. -/
def keyToTag (o : EncodingOptions) (key : String) : String × List String :=
  (o.tagEncoding key, o.fallbackEncodings.map (fun e => e key))

/-- `OciLocation::reference`: the primary reference and the fallback
references. -/
def locationReference (o : EncodingOptions) (loc : OciLocation) :
    Reference × List Reference :=
  (⟨loc.registry, loc.repository, (keyToTag o loc.key).1⟩,
    (keyToTag o loc.key).2.map (fun t => ⟨loc.registry, loc.repository, t⟩))

/-- The errors `registry::put` can produce in the modelled path. -/
inductive PutError
  | invalidMaxRetry (n : Nat)
  | retryAllFails (errs : List Nat)
deriving DecidableEq, Repr

/-- Content-type defaulting in `put`. -/
def contentTypeOrDefault : Option String → String
  | none => "application/octet-stream"
  | some c => c

/-- The image annotations `put` attaches to the manifest. -/
def imageAnnotations (key : String) : List (String × String) :=
  [("com.linyinfeng.oranc.key", key),
    ("org.opencontainers.image.description", key)]

/-- The `for attempt in 1..max_retry` loop of `put`.  `push i = none`
means the push succeeded on attempt `i`; `some e` means it failed with
error `e`.  The first component lists the network pushes performed (the
reference pushed and the attempt number); under `dry_run` the loop
returns success on its first iteration without pushing. -/
def putGo (reference : Reference) (dryRun : Bool) (push : Nat → Option Nat) :
    List Nat → List Nat → List (Reference × Nat) × Except PutError Unit
  | [], errs => ([], .error (.retryAllFails errs))
  | i :: rest, errs =>
    if dryRun then ([], .ok ())
    else
      match push i with
      | none => ([(reference, i)], .ok ())
      | some e =>
        ((reference, i) :: (putGo reference dryRun push rest (errs ++ [e])).1,
          (putGo reference dryRun push rest (errs ++ [e])).2)

/-- `registry::put`: check `max_retry`, build the primary reference
(`let (reference, _fallbacks) = location.reference(...)` — the fallbacks
are discarded), and run the attempt loop. -/
def put (o : EncodingOptions) (loc : OciLocation) (dryRun : Bool)
    (maxRetry : Nat) (push : Nat → Option Nat) :
    List (Reference × Nat) × Except PutError Unit :=
  if maxRetry < 1 then ([], .error (.invalidMaxRetry maxRetry))
  else putGo (locationReference o loc).1 dryRun push
    (List.range' 1 (maxRetry - 1)) []

/-! ### Properties of put -/

theorem putGo_cons_dry (reference : Reference) (push : Nat → Option Nat)
    (i : Nat) (rest errs : List Nat) :
    putGo reference true push (i :: rest) errs = ([], .ok ()) := by
  rw [putGo]
  rfl

theorem putGo_cons_none (reference : Reference) (push : Nat → Option Nat)
    (i : Nat) (rest errs : List Nat) (hp : push i = none) :
    putGo reference false push (i :: rest) errs = ([(reference, i)], .ok ()) := by
  rw [putGo, hp]
  rfl

theorem putGo_cons_some (reference : Reference) (push : Nat → Option Nat)
    (i : Nat) (rest errs : List Nat) (e : Nat) (hp : push i = some e) :
    putGo reference false push (i :: rest) errs =
      ((reference, i) :: (putGo reference false push rest (errs ++ [e])).1,
        (putGo reference false push rest (errs ++ [e])).2) := by
  rw [putGo, hp]
  rfl

theorem putGo_calls (reference : Reference) (dryRun : Bool)
    (push : Nat → Option Nat) :
    ∀ (attempts errs : List Nat),
      (∀ c ∈ (putGo reference dryRun push attempts errs).1, c.1 = reference) ∧
        (putGo reference dryRun push attempts errs).1.length ≤ attempts.length := by
  intro attempts
  induction attempts with
  | nil => intro errs; simp [putGo]
  | cons i rest ih =>
    intro errs
    by_cases hd : dryRun = true
    · rw [hd, putGo_cons_dry]
      simp
    · have hd2 : dryRun = false := by revert hd; cases dryRun <;> simp
      subst hd2
      cases hp : push i with
      | none =>
        rw [putGo_cons_none reference push i rest errs hp]
        simp
      | some e =>
        rw [putGo_cons_some reference push i rest errs e hp]
        constructor
        · intro c hc
          rcases List.mem_cons.mp hc with rfl | hm
          · rfl
          · exact (ih (errs ++ [e])).1 c hm
        · have := (ih (errs ++ [e])).2
          simp only [List.length_cons]
          omega

theorem putGo_all_fail (reference : Reference) (push : Nat → Option Nat)
    (e : Nat → Nat) (hp : ∀ i, push i = some (e i)) :
    ∀ (attempts errs : List Nat),
      putGo reference false push attempts errs =
        (attempts.map (fun i => (reference, i)),
          .error (.retryAllFails (errs ++ attempts.map e))) := by
  intro attempts
  induction attempts with
  | nil => intro errs; simp [putGo]
  | cons i rest ih =>
    intro errs
    rw [putGo_cons_some reference push i rest errs (e i) (hp i), ih (errs ++ [e i])]
    simp

/-- C3 counterexample: with `dry_run` set and `max_retry = 1` the attempt
loop body never runs, so `put` returns `RetryAllFails([])` instead of the
success the claim promises for every dry run. -/
theorem C3_put_dry_run_counterexample :
    put ⟨fun k => k, []⟩ ⟨"r", "p", "k"⟩ true 1 (fun _ => none) =
      ([], .error (.retryAllFails [])) ∧
      (put ⟨fun k => k, []⟩ ⟨"r", "p", "k"⟩ true 1 (fun _ => none)).2 ≠
        .ok () := by
  refine ⟨rfl, ?_⟩
  intro h
  rw [show (put ⟨fun k => k, []⟩ ⟨"r", "p", "k"⟩ true 1 (fun _ => none)).2 =
    .error (.retryAllFails []) from rfl] at h
  exact Except.noConfusion h

/-- C3 (amended): `put` pushes only the primary tag (never a fallback),
performs at most `max_retry - 1` push attempts, returns `RetryAllFails`
with the per-attempt errors when every attempt fails, and — provided
`max_retry ≥ 2`, so that the loop body runs at least once — a dry run
returns success on the first attempt without any network call (with
`max_retry = 1` even a dry run returns `RetryAllFails([])`). -/
theorem C3_put_primary_retry (o : EncodingOptions) (loc : OciLocation)
    (dryRun : Bool) (maxRetry : Nat) (push : Nat → Option Nat)
    (h : 1 ≤ maxRetry) :
    (∀ c ∈ (put o loc dryRun maxRetry push).1,
      c.1 = Reference.mk loc.registry loc.repository (o.tagEncoding loc.key)) ∧
    (put o loc dryRun maxRetry push).1.length ≤ maxRetry - 1 ∧
    (dryRun = false → ∀ e : Nat → Nat, (∀ i, push i = some (e i)) →
      put o loc dryRun maxRetry push =
        ((List.range' 1 (maxRetry - 1)).map
            (fun i => (Reference.mk loc.registry loc.repository
              (o.tagEncoding loc.key), i)),
          .error (.retryAllFails ((List.range' 1 (maxRetry - 1)).map e)))) ∧
    (dryRun = true → 2 ≤ maxRetry →
      put o loc dryRun maxRetry push = ([], .ok ())) := by
  have hput : put o loc dryRun maxRetry push =
      putGo ⟨loc.registry, loc.repository, o.tagEncoding loc.key⟩ dryRun push
        (List.range' 1 (maxRetry - 1)) [] := by
    rw [put, if_neg (by omega)]
    rfl
  refine ⟨?_, ?_, ?_, ?_⟩
  · rw [hput]
    exact (putGo_calls ⟨loc.registry, loc.repository, o.tagEncoding loc.key⟩
      dryRun push (List.range' 1 (maxRetry - 1)) []).1
  · rw [hput]
    have := (putGo_calls ⟨loc.registry, loc.repository, o.tagEncoding loc.key⟩
      dryRun push (List.range' 1 (maxRetry - 1)) []).2
    simpa [List.length_range'] using this
  · intro hd e hp
    subst hd
    rw [hput, putGo_all_fail _ push e hp (List.range' 1 (maxRetry - 1)) []]
    simp
  · intro hd h2
    subst hd
    rw [hput]
    have hr : List.range' 1 (maxRetry - 1) = 1 :: List.range' 2 (maxRetry - 2) := by
      have hm : maxRetry - 1 = (maxRetry - 2) + 1 := by omega
      rw [hm, List.range'_succ]
    rw [hr]
    exact putGo_cons_dry _ push 1 (List.range' 2 (maxRetry - 2)) []

/-- Witness for C3 at `max_retry = 3` with a push that always fails. -/
theorem C3_put_primary_retry_witness :
    (∀ c ∈ (put ⟨fun k => k, []⟩ ⟨"r", "p", "k"⟩ false 3
        (fun i => some (i + 10))).1,
      c.1 = Reference.mk "r" "p" "k") ∧
    (put ⟨fun k => k, []⟩ ⟨"r", "p", "k"⟩ false 3
        (fun i => some (i + 10))).1.length ≤ 2 ∧
    put ⟨fun k => k, []⟩ ⟨"r", "p", "k"⟩ false 3 (fun i => some (i + 10)) =
      ([(⟨"r", "p", "k"⟩, 1), (⟨"r", "p", "k"⟩, 2)],
        .error (.retryAllFails [11, 12])) := by
  have h := C3_put_primary_retry ⟨fun k => k, []⟩ ⟨"r", "p", "k"⟩ false 3
    (fun i => some (i + 10)) (by norm_num)
  refine ⟨h.1, h.2.1, ?_⟩
  have h3 := h.2.2.1 rfl (fun i => i + 10) (fun i => rfl)
  simpa using h3

/-! ## Model of src/server/auth.rs (Auth::from_request_parts)

`data_encoding::BASE64` is the canonical RFC 4648 base64 with mandatory
padding, rejecting non-alphabet symbols, non-canonical length, misplaced
padding and nonzero trailing bits.  `String::from_utf8` is strict UTF-8
validation (rejecting overlong forms, surrogates, and code points above
`0x10FFFF`). -/

/-- `oci_client::secrets::RegistryAuth` (the two variants used). -/
inductive RegistryAuth
  | anonymous
  | basic (user pass : String)
deriving DecidableEq, Repr

/-- The errors `Auth::from_request_parts` can produce after the
header-to-string step: `Error::InvalidAuthorization`, `Error::Decode`,
`Error::FromUtf8` (payloads of the latter two omitted). -/
inductive AuthError
  | invalidAuthorization (s : String)
  | decodeFail
  | fromUtf8Fail
deriving DecidableEq, Repr

/-- Value of a base64 alphabet symbol. -/
def b64val (c : Char) : Option Nat :=
  if 65 ≤ c.toNat ∧ c.toNat ≤ 90 then some (c.toNat - 65)
  else if 97 ≤ c.toNat ∧ c.toNat ≤ 122 then some (c.toNat - 97 + 26)
  else if 48 ≤ c.toNat ∧ c.toNat ≤ 57 then some (c.toNat - 48 + 52)
  else if c = '+' then some 62
  else if c = '/' then some 63
  else none

/-- Canonical padded base64 decoding (`data_encoding::BASE64.decode`),
block by block; the final block may end in `=` or `==`, and trailing bits
must be zero. -/
def b64decode : List Char → Option (List Nat)
  | [] => some []
  | c1 :: c2 :: c3 :: c4 :: rest =>
    match b64val c1, b64val c2 with
    | some v1, some v2 =>
      if c3 = '=' then
        if c4 = '=' ∧ rest = [] ∧ v2 % 16 = 0 then some [v1 * 4 + v2 / 16]
        else none
      else
        match b64val c3 with
        | some v3 =>
          if c4 = '=' then
            if rest = [] ∧ v3 % 4 = 0 then
              some [v1 * 4 + v2 / 16, v2 % 16 * 16 + v3 / 4]
            else none
          else
            match b64val c4 with
            | some v4 =>
              (b64decode rest).map (fun bs =>
                (v1 * 4 + v2 / 16) :: (v2 % 16 * 16 + v3 / 4) ::
                  (v3 % 4 * 64 + v4) :: bs)
            | none => none
        | none => none
    | _, _ => none
  | _ => none

/-- Strict UTF-8 decoding of a byte list into code points. -/
def utf8Decode : List Nat → Option (List Nat)
  | [] => some []
  | b :: bs =>
    if b < 128 then (utf8Decode bs).map (fun cs => b :: cs)
    else if b < 194 then none
    else if b < 224 then
      match bs with
      | b2 :: bs2 =>
        if 128 ≤ b2 ∧ b2 < 192 then
          (utf8Decode bs2).map (fun cs => ((b - 192) * 64 + (b2 - 128)) :: cs)
        else none
      | [] => none
    else if b < 240 then
      match bs with
      | b2 :: b3 :: bs3 =>
        if (if b = 224 then 160 else 128) ≤ b2 ∧
            b2 < (if b = 237 then 160 else 192) ∧ 128 ≤ b3 ∧ b3 < 192 then
          (utf8Decode bs3).map (fun cs =>
            ((b - 224) * 4096 + (b2 - 128) * 64 + (b3 - 128)) :: cs)
        else none
      | _ => none
    else if b < 245 then
      match bs with
      | b2 :: b3 :: b4 :: bs4 =>
        if (if b = 240 then 144 else 128) ≤ b2 ∧
            b2 < (if b = 244 then 144 else 192) ∧
            128 ≤ b3 ∧ b3 < 192 ∧ 128 ≤ b4 ∧ b4 < 192 then
          (utf8Decode bs4).map (fun cs =>
            ((b - 240) * 262144 + (b2 - 128) * 4096 + (b3 - 128) * 64 +
              (b4 - 128)) :: cs)
        else none
      | _ => none
    else none

/-- A decoded code point as a `Char` (always succeeds on `utf8Decode`
output). -/
def charOfCp (n : Nat) : Option Char :=
  if n.isValidChar then some (Char.ofNat n) else none

/-- `String::from_utf8`. -/
def fromUtf8 (bs : List Nat) : Option (List Char) :=
  (utf8Decode bs).bind (fun cps => cps.mapM charOfCp)

/-- `BASIC_AUTH_PATTERN` = `^Basic (.*)$`: the capture is everything
after the `"Basic "` literal, and `.` does not match a newline. -/
def basicCapture (l : List Char) : Option (List Char) :=
  if l.take 6 = "Basic ".data ∧ (l.drop 6).all (fun c => c ≠ '\n') = true
  then some (l.drop 6) else none

def awsCredPre : List Char := "AWS4-HMAC-SHA256 Credential=".data

/-- `AWS_AUTH_PATTERN` = `^AWS4-HMAC-SHA256 Credential=([^ /,]+)/.*$`:
the capture is the maximal run free of space, slash and comma after the
literal; it must be nonempty, followed immediately by `'/'`, and the rest
must be newline-free. -/
def awsCapture (l : List Char) : Option (List Char) :=
  if l.take awsCredPre.length = awsCredPre then
    match (l.drop awsCredPre.length).dropWhile
        (fun c => c ≠ ' ' ∧ c ≠ '/' ∧ c ≠ ',') with
    | c :: rest =>
      if c = '/' ∧
          (l.drop awsCredPre.length).takeWhile
            (fun c => c ≠ ' ' ∧ c ≠ '/' ∧ c ≠ ',') ≠ [] ∧
          rest.all (fun c => c ≠ '\n') = true
      then some ((l.drop awsCredPre.length).takeWhile
        (fun c => c ≠ ' ' ∧ c ≠ '/' ∧ c ≠ ','))
      else none
    | [] => none
  else none

/-- `Option::or_else` as used for `BASIC.captures(s).or_else(|| AWS.captures(s))`. -/
def orElseOpt {α : Type} : Option α → Option α → Option α
  | some x, _ => some x
  | none, b => b

/-- The combined capture of the two auth header patterns. -/
def captures (s : String) : Option (List Char) :=
  orElseOpt (basicCapture s.data) (awsCapture s.data)

/-- `DECODED_PATTERN` = `^([^:]+):(.+)$` on the base64-decoded string:
nonempty colon-free user, then `':'`, then a nonempty newline-free
password (the head of the nonempty `dropWhile` is necessarily the first
`':'`). -/
def decodedSplit (l : List Char) : Option (String × String) :=
  match l.dropWhile (fun c => c ≠ ':') with
  | _ :: p =>
    if l.takeWhile (fun c => c ≠ ':') ≠ [] ∧ p ≠ [] ∧
        p.all (fun c => c ≠ '\n') = true
    then some (String.mk (l.takeWhile (fun c => c ≠ ':')), String.mk p)
    else none
  | [] => none

/-- `Auth::from_request_parts` after the header-to-string step: a missing
header is anonymous; otherwise match the Basic pattern, then the AWS
pattern; base64-decode the capture (failure = `Decode`), UTF-8-decode it
(failure = `FromUtf8`), and split it on the first `':'` (pattern failure
= `InvalidAuthorization`). -/
def authFromHeader : Option String → Except AuthError RegistryAuth
  | none => .ok .anonymous
  | some s =>
    match captures s with
    | none => .error (.invalidAuthorization s)
    | some cap =>
      match b64decode cap with
      | none => .error .decodeFail
      | some bytes =>
        match fromUtf8 bytes with
        | none => .error .fromUtf8Fail
        | some chars =>
          match decodedSplit chars with
          | some (u, p) => .ok (.basic u p)
          | none => .error (.invalidAuthorization s)

theorem decodedSplit_eq_cons (l : List Char) (c : Char) (p : List Char)
    (h : l.dropWhile (fun c => c ≠ ':') = c :: p) :
    decodedSplit l =
      if l.takeWhile (fun c => c ≠ ':') ≠ [] ∧ p ≠ [] ∧
          p.all (fun c => c ≠ '\n') = true
      then some (String.mk (l.takeWhile (fun c => c ≠ ':')), String.mk p)
      else none := by
  rw [decodedSplit, h]

theorem decodedSplit_eq_nil (l : List Char)
    (h : l.dropWhile (fun c => c ≠ ':') = []) : decodedSplit l = none := by
  rw [decodedSplit, h]

/-! ### Properties of auth parsing -/

/-- C5 counterexample: the claim says every decode failure yields
`InvalidAuthorization`, but for the header `"Basic #"` (whose capture
`"#"` is not valid base64) the code returns the distinct error
`Error::Decode`. -/
theorem C5_auth_decode_error_counterexample :
    authFromHeader (some "Basic #") = .error .decodeFail ∧
      (Except.error AuthError.decodeFail :
          Except AuthError RegistryAuth) ≠
        .error (.invalidAuthorization "Basic #") := by
  refine ⟨by decide, ?_⟩
  intro h
  injection h with h2
  cases h2

/-- C5 (amended): a missing header yields anonymous auth; a header
matching `^Basic (.*)$` or, failing that,
`^AWS4-HMAC-SHA256 Credential=([^ /,]+)/.*$` has its captured group
base64-decoded and split on the first `':'` per `^([^:]+):(.+)$`
(nonempty user and password) into `(username, password)` — in particular
`Basic dXNlcjpwYXNz` and `AWS4-HMAC-SHA256 Credential=dXNlcjpwYXNz/foo`
both parse to `(user, pass)`; a header matching neither pattern and a
split failure yield `InvalidAuthorization`, while a base64 failure
yields `Decode` and invalid UTF-8 yields `FromUtf8` (not
`InvalidAuthorization` as the claim states). -/
theorem C5_auth_parsing :
    authFromHeader none = .ok .anonymous ∧
    authFromHeader (some "Basic dXNlcjpwYXNz") = .ok (.basic "user" "pass") ∧
    authFromHeader (some "AWS4-HMAC-SHA256 Credential=dXNlcjpwYXNz/foo") =
      .ok (.basic "user" "pass") ∧
    (∀ s : String, captures s = none →
      authFromHeader (some s) = .error (.invalidAuthorization s)) ∧
    (∀ (s : String) (cap : List Char), captures s = some cap →
      b64decode cap = none → authFromHeader (some s) = .error .decodeFail) ∧
    (∀ (s : String) (cap : List Char) (bytes : List Nat),
      captures s = some cap → b64decode cap = some bytes →
      fromUtf8 bytes = none → authFromHeader (some s) = .error .fromUtf8Fail) ∧
    (∀ (s : String) (cap : List Char) (bytes : List Nat) (chars : List Char),
      captures s = some cap → b64decode cap = some bytes →
      fromUtf8 bytes = some chars → decodedSplit chars = none →
      authFromHeader (some s) = .error (.invalidAuthorization s)) ∧
    (∀ (s : String) (cap : List Char) (bytes : List Nat) (chars : List Char)
      (u p : String),
      captures s = some cap → b64decode cap = some bytes →
      fromUtf8 bytes = some chars → decodedSplit chars = some (u, p) →
      authFromHeader (some s) = .ok (.basic u p)) ∧
    (∀ (chars : List Char) (u p : String), decodedSplit chars = some (u, p) →
      chars = u.data ++ ':' :: p.data) := by
  refine ⟨rfl, by decide, by decide, ?_, ?_, ?_, ?_, ?_, ?_⟩
  · intro s hcap
    simp only [authFromHeader, hcap]
  · intro s cap hcap hb
    simp only [authFromHeader, hcap, hb]
  · intro s cap bytes hcap hb hu
    simp only [authFromHeader, hcap, hb, hu]
  · intro s cap bytes chars hcap hb hu hs
    simp only [authFromHeader, hcap, hb, hu, hs]
  · intro s cap bytes chars u p hcap hb hu hs
    simp only [authFromHeader, hcap, hb, hu, hs]
  · intro chars u p h
    rcases hdw : chars.dropWhile (fun c => decide (c ≠ ':')) with _ | ⟨c, rest⟩
    · rw [decodedSplit_eq_nil chars hdw] at h
      exact Option.noConfusion h
    · rw [decodedSplit_eq_cons chars c rest hdw] at h
      by_cases hcond : chars.takeWhile (fun c => decide (c ≠ ':')) ≠ [] ∧
          rest ≠ [] ∧ rest.all (fun c => decide (c ≠ '\n')) = true
      · rw [if_pos hcond] at h
        cases h
        have hc : c = ':' := by
          have := dropWhile_head_false _ chars c rest hdw
          simpa using this
        conv_lhs => rw [← List.takeWhile_append_dropWhile
          (fun c => decide (c ≠ ':')) chars]
        rw [hdw, hc]
      · rw [if_neg hcond] at h
        exact Option.noConfusion h

/-- Witness for C5 at the concrete non-matching header `"X"`. -/
theorem C5_auth_parsing_witness :
    authFromHeader (some "X") = .error (.invalidAuthorization "X") :=
  C5_auth_parsing.2.2.2.1 "X" rfl

/-! ## Model of src/server.rs and src/server/upstream.rs

The gateway GET handler and the upstream probe.  HTTP I/O is abstracted
as oracles (`respond` gives the status of a HEAD request, `none` being a
transport failure), and the models also return the list of HEAD requests
performed. -/

/-- The server-side errors reachable in the modelled paths.  (`Upstream`
appears in src/server.rs; the remaining codes follow `Error::code()` in
src/error.rs: `ReferenceNotFound` → 404, infrastructure errors → 500,
client errors → 400.) -/
inductive SrvError
  | referenceNotFound (r : Reference)
  | reqwestErr
  | upstreamErr (status : Nat)
  | ociDistribution (n : Nat)
  | invalidMaxRetry (n : Nat)
deriving DecidableEq, Repr

/-- `Error::code()` restricted to the modelled variants. -/
def srvErrorCode : SrvError → Nat
  | .referenceNotFound _ => 404
  | .reqwestErr => 500
  | .upstreamErr _ => 500
  | .ociDistribution _ => 400
  | .invalidMaxRetry _ => 400

def NO_SUCH_KEY_RESPONSE_BODY : String := "<Error><Code>NoSuchKey</Code></Error>"

/-- An HTTP response as far as the claims observe it. -/
structure HttpResp where
  status : Nat
  body : String
  location : Option String
  contentType : Option String
deriving DecidableEq, Repr

/-- Model of the `Display` rendering of an error (the exact text matters
to no claim; only `ReferenceNotFound` has a mandated body and it does not
use this). -/
def errorDisplay : SrvError → String
  | .referenceNotFound _ => "reference not found"
  | .reqwestErr => "reqwest error"
  | .upstreamErr _ => "upstream error"
  | .ociDistribution _ => "oci distribution error"
  | .invalidMaxRetry _ => "invalid max retry number"

/-- `handle_error` (src/server.rs): status from `Error::code()`;
`ReferenceNotFound` gets the exact S3 `NoSuchKey` body, every other error
gets `format!("error: {}\n", e)`. -/
def handle_error (e : SrvError) : HttpResp :=
  { status := srvErrorCode e,
    body :=
      match e with
      | .referenceNotFound _ => NO_SUCH_KEY_RESPONSE_BODY
      | e2 => "error: " ++ errorDisplay e2 ++ "\n",
    location := none,
    contentType := none }

/-- `redirect_response`: `302 Found` with a `Location` header and an
empty body. -/
def redirect_response (url : String) : HttpResp := ⟨302, "", some url, none⟩

/-- The `get` handler (src/server.rs) before error recovery: the upstream
probe result short-circuits to a redirect; otherwise the layer probe; a
missing layer is `Error::ReferenceNotFound`; otherwise the blob is
streamed with the layer content type. -/
def getRaw (upstreamRes : Except SrvError (Option String))
    (layerRes : Except SrvError (Option LayerInfo))
    (blobRes : Except SrvError String) (reference : Reference) :
    Except SrvError HttpResp :=
  match upstreamRes with
  | .error e => .error e
  | .ok (some url) => .ok (redirect_response url)
  | .ok none =>
    match layerRes with
    | .error e => .error e
    | .ok none => .error (.referenceNotFound reference)
    | .ok (some info) =>
      match blobRes with
      | .error e => .error e
      | .ok blob => .ok ⟨200, blob, none, some info.contentType⟩

/-- The `get` route with its `recover(handle_error)` wrapper. -/
def getHandled (upstreamRes : Except SrvError (Option String))
    (layerRes : Except SrvError (Option LayerInfo))
    (blobRes : Except SrvError String) (reference : Reference) : HttpResp :=
  match getRaw upstreamRes layerRes blobRes reference with
  | .ok r => r
  | .error e => handle_error e

/-- C6: for every GET whose key resolves to no existing object
(`get_layer_info` returned `None` and the upstream probe produced no
redirect), the gateway responds 404 with body exactly
`<Error><Code>NoSuchKey</Code></Error>`. -/
theorem C6_not_found_body (reference : Reference)
    (blobRes : Except SrvError String) :
    getHandled (.ok none) (.ok none) blobRes reference =
      { status := 404, body := "<Error><Code>NoSuchKey</Code></Error>",
        location := none, contentType := none } := rfl

/-- `matches!(auth, RegistryAuth::Anonymous)`. -/
def isAnonymous : RegistryAuth → Bool
  | .anonymous => true
  | .basic _ _ => false

/-- `ServerOptions` fields read by the upstream probe. -/
structure UpstreamOptions where
  maxRetry : Nat
  upstreamAnonymous : Bool
  ignoreUp : String → Bool
  upstreams : List String

/-- `upstream_url` (URL path join, modelled as string concatenation; no
claim depends on its exact shape). -/
def upstream_url (base key : String) : String := base ++ "/" ++ key

/-- The inner `for attempt in 1..max_retry` loop of `upstream::check`:
each HEAD is recorded; a transport failure aborts with `Reqwest`; 200
succeeds; 404 breaks to the next upstream; any other status is logged and
retried. -/
def headTries (respond : String → Nat → Option Nat) (url : String) :
    List Nat → List (String × Nat) × Except SrvError (Option Unit)
  | [] => ([], .ok none)
  | i :: rest =>
    match respond url i with
    | none => ([(url, i)], .error .reqwestErr)
    | some 200 => ([(url, i)], .ok (some ()))
    | some 404 => ([(url, i)], .ok none)
    | some _ =>
      ((url, i) :: (headTries respond url rest).1,
        (headTries respond url rest).2)

/-- The outer loop of `upstream::check` over the configured upstreams. -/
def upstreamLoop (respond : String → Nat → Option Nat) (maxRetry : Nat)
    (key : String) :
    List String → List (String × Nat) × Except SrvError (Option String)
  | [] => ([], .ok none)
  | u :: rest =>
    match headTries respond (upstream_url u key)
        (List.range' 1 (maxRetry - 1)) with
    | (evs, .error e) => (evs, .error e)
    | (evs, .ok (some _)) => (evs, .ok (some (upstream_url u key)))
    | (evs, .ok none) =>
      (evs ++ (upstreamLoop respond maxRetry key rest).1,
        (upstreamLoop respond maxRetry key rest).2)

/-- `upstream::check` (src/server/upstream.rs): validate `max_retry`,
skip when the request is anonymous and `upstream_anonymous` is off, skip
when the key matches `ignore_upstream`, else probe the upstreams. -/
def check (o : UpstreamOptions) (key : String) (auth : RegistryAuth)
    (respond : String → Nat → Option Nat) :
    List (String × Nat) × Except SrvError (Option String) :=
  if o.maxRetry < 1 then ([], .error (.invalidMaxRetry o.maxRetry))
  else if isAnonymous auth ∧ ¬o.upstreamAnonymous then ([], .ok none)
  else if o.ignoreUp key then ([], .ok none)
  else upstreamLoop respond o.maxRetry key o.upstreams

/-- The single-attempt upstream loop of `check_upstream` (src/server.rs):
one HEAD per upstream, 200 redirects, 404 advances, anything else is
`Error::Upstream`. -/
def srvUpstreamLoop (respond : String → Option Nat) (key : String) :
    List String → List String × Except SrvError (Option String)
  | [] => ([], .ok none)
  | u :: rest =>
    match respond (upstream_url u key) with
    | none => ([upstream_url u key], .error .reqwestErr)
    | some 200 => ([upstream_url u key], .ok (some (upstream_url u key)))
    | some 404 =>
      (upstream_url u key :: (srvUpstreamLoop respond key rest).1,
        (srvUpstreamLoop respond key rest).2)
    | some st => ([upstream_url u key], .error (.upstreamErr st))

/-- `check_upstream` (src/server.rs). -/
def check_upstream (upstreamAnonymous : Bool) (ignoreUp : String → Bool)
    (upstreams : List String) (key : String) (auth : RegistryAuth)
    (respond : String → Option Nat) :
    List String × Except SrvError (Option String) :=
  if isAnonymous auth ∧ ¬upstreamAnonymous then ([], .ok none)
  else if ignoreUp key then ([], .ok none)
  else srvUpstreamLoop respond key upstreams

/-- C7: whenever the request is anonymous with `upstream_anonymous` off,
or the key matches `ignore_upstream`, the probe sends no HEAD request to
any upstream and returns no redirect — in both `upstream::check` and
`check_upstream`. -/
theorem C7_upstream_probe_skipped (maxRetry : Nat) (uA : Bool)
    (ig : String → Bool) (ups : List String) (key : String)
    (auth : RegistryAuth) (respond : String → Nat → Option Nat)
    (respond2 : String → Option Nat)
    (hskip : (isAnonymous auth = true ∧ uA = false) ∨ ig key = true) :
    (check ⟨maxRetry, uA, ig, ups⟩ key auth respond).1 = [] ∧
    (∀ url, (check ⟨maxRetry, uA, ig, ups⟩ key auth respond).2 ≠
      .ok (some url)) ∧
    check_upstream uA ig ups key auth respond2 = ([], .ok none) := by
  have hbody : ∀ r : List (String × Nat) × Except SrvError (Option String),
      r = ([], .error (.invalidMaxRetry maxRetry)) ∨ r = ([], .ok none) →
      r.1 = [] ∧ ∀ url, r.2 ≠ .ok (some url) := by
    rintro r (rfl | rfl)
    · exact ⟨rfl, fun url h => Except.noConfusion h⟩
    · refine ⟨rfl, fun url h => ?_⟩
      injection h with h2
      exact Option.noConfusion h2
  have hcheck : check ⟨maxRetry, uA, ig, ups⟩ key auth respond =
      ([], .error (.invalidMaxRetry maxRetry)) ∨
      check ⟨maxRetry, uA, ig, ups⟩ key auth respond = ([], .ok none) := by
    rw [check]
    by_cases hmr : maxRetry < 1
    · rw [if_pos hmr]
      exact Or.inl rfl
    · rw [if_neg hmr]
      rcases hskip with ⟨ha, hu⟩ | hig
      · rw [if_pos ⟨ha, by simp [hu]⟩]
        exact Or.inr rfl
      · by_cases hanon : isAnonymous auth ∧ ¬uA
        · rw [if_pos hanon]
          exact Or.inr rfl
        · rw [if_neg hanon, if_pos hig]
          exact Or.inr rfl
  have hsrv : check_upstream uA ig ups key auth respond2 = ([], .ok none) := by
    rw [check_upstream]
    rcases hskip with ⟨ha, hu⟩ | hig
    · rw [if_pos ⟨ha, by simp [hu]⟩]
    · by_cases hanon : isAnonymous auth ∧ ¬uA
      · rw [if_pos hanon]
      · rw [if_neg hanon, if_pos hig]
  exact ⟨(hbody _ hcheck).1, (hbody _ hcheck).2, hsrv⟩

/-- Witness for C7 at the spec scenario: `ignore_upstream` matches
`nix-cache-info`, one upstream `U`, anonymous auth with
`upstream_anonymous` off. -/
theorem C7_upstream_probe_skipped_witness :
    (check ⟨3, false, (fun k => k == "nix-cache-info"), ["U"]⟩
        "nix-cache-info" .anonymous (fun _ _ => some 200)).1 = [] ∧
    (∀ url, (check ⟨3, false, (fun k => k == "nix-cache-info"), ["U"]⟩
        "nix-cache-info" .anonymous (fun _ _ => some 200)).2 ≠
      .ok (some url)) ∧
    check_upstream false (fun k => k == "nix-cache-info") ["U"]
      "nix-cache-info" .anonymous (fun _ => some 200) = ([], .ok none) :=
  C7_upstream_probe_skipped 3 false (fun k => k == "nix-cache-info") ["U"]
    "nix-cache-info" .anonymous (fun _ _ => some 200) (fun _ => some 200)
    (Or.inl ⟨rfl, rfl⟩)

/-! ## Model of src/push.rs (push_one early stop, handle_push_result) -/

/-- The push-side errors the early-stop machinery distinguishes:
`Error::EarlyStop` and everything else. -/
inductive PushErr
  | earlyStop
  | other (n : Nat)
deriving DecidableEq, Repr

/-- The observable I/O events of one worker body (DB connection, path
info read, uploads). -/
inductive PushEvent
  | dbOpen
  | dbRead
  | upload (n : Nat)
deriving DecidableEq, Repr

/-- `push_one`: the first action after task bookkeeping is
`not_failed()?`, which returns the `EarlyStop` sentinel when the shared
`failed` flag is set — before the blocking body (which opens the DB
connection and reads the path info) runs.  `failed` is the flag value the
task reads at its start; `body` is the rest of the worker (its events and
its result). -/
def push_one (failed : Bool)
    (body : List PushEvent × Except PushErr Unit) :
    List PushEvent × Except PushErr Unit :=
  if failed then ([], .error .earlyStop) else body

/-- `handle_push_result`: `EarlyStop` is swallowed silently (flag
unchanged, nothing logged — the second component is what gets logged);
any other error is logged and sets the flag. -/
def handle_push_result (r : Except PushErr Unit) (failed : Bool) :
    Bool × Option PushErr :=
  match r with
  | .error .earlyStop => (failed, none)
  | .error e => (true, some e)
  | .ok _ => (failed, none)

/-- The result-collection loop of `push`: each task runs `push_one` with
the current flag and its result is folded through `handle_push_result`
(the concurrent `buffer_unordered` stream is modelled as the sequential
interleaving in list order). -/
def runPushes (bodies : List (List PushEvent × Except PushErr Unit))
    (failed : Bool) : Bool :=
  match bodies with
  | [] => failed
  | b :: rest =>
    runPushes rest (handle_push_result (push_one failed b).2 failed).1

/-- The final status of `push`. -/
inductive PushFinal
  | ok
  | pushFailed
deriving DecidableEq, Repr

/-- The tail of `push`: `PushFailed` exactly when the flag ends up set
(the flag starts unset). -/
def pushResult (bodies : List (List PushEvent × Except PushErr Unit)) :
    PushFinal :=
  if runPushes bodies false then .pushFailed else .ok

/-- C8: once the shared `failed` flag is set, every `push_one` that
subsequently starts returns the `EarlyStop` sentinel with no DB events at
all; `EarlyStop` results are swallowed silently while any other error
sets the flag; the flag never resets; and the final pusher status is
`PushFailed` exactly when the flag was set at the end of the run. -/
theorem C8_early_stop :
    (∀ body, push_one true body = ([], .error .earlyStop)) ∧
    (∀ f, handle_push_result (.error .earlyStop) f = (f, none)) ∧
    (∀ f e, handle_push_result (.error (.other e)) f = (true, some (.other e))) ∧
    (∀ f, handle_push_result (.ok ()) f = (f, none)) ∧
    (∀ bodies, runPushes bodies true = true) ∧
    (∀ bodies, pushResult bodies = .pushFailed ↔ runPushes bodies false = true) := by
  refine ⟨fun body => rfl, fun f => rfl, fun f e => rfl, fun f => rfl, ?_, ?_⟩
  · intro bodies
    induction bodies with
    | nil => rfl
    | cons b rest ih =>
      rw [runPushes]
      convert ih using 2
  · intro bodies
    rw [pushResult]
    by_cases h : runPushes bodies false = true
    · rw [if_pos h]
      simp [h]
    · rw [if_neg (by simpa using h)]
      simp [h]

end Oranc
